import Mathlib

/-!
Verification of the GZMetroSpinWheel repository.

Shallow embedding, over `ℚ`, of the spin-wheel component
(`src/components/MetroRoulette.vue`), of the pinia store
(`src/stores/metro.ts`) and of the offline conversion script
(`convert_metro_data.js`).  JavaScript numbers are modelled as rationals,
`Math.floor` as `Int.floor`, the JavaScript remainder `%` (truncated
division, sign of the dividend) as `jsMod`, and every `Math.random()` draw
as an explicit parameter ranging over `[0, 1)`.
-/

namespace MetroSpin


/-- A line reference carried on a station: the `{name, color}` entries of
the `lines` field of `MetroStation` in `src/types/index.ts`. -/
structure LineTag where
  name : String
  color : String
deriving DecidableEq, Repr

/-- The interface `MetroStation` from `src/types/index.ts`. -/
structure MetroStation where
  name : String
  lines : List LineTag
deriving DecidableEq, Repr

/-- The interface `MetroLine` from `src/types/index.ts`. -/
structure MetroLine where
  id : String
  name : String
  color : String
  stations : List String
deriving DecidableEq, Repr

/-- Truncation toward zero, the rounding JavaScript's `%` is built on. -/
def jsTrunc (a : ℚ) : ℤ := if 0 ≤ a then ⌊a⌋ else ⌈a⌉

/-- The JavaScript remainder `a % b` on numbers: `a - b * trunc (a / b)`,
whose sign follows the dividend. -/
def jsMod (a b : ℚ) : ℚ := a - b * jsTrunc (a / b)

/-- Euclidean remainder by 360: the representative of `x` in `[0, 360)`. -/
def emod360 (x : ℚ) : ℚ := x - 360 * ⌊x / 360⌋

/-- The normalization `((x % 360) + 360) % 360` written in the component;
it maps any rotation into `[0, 360)`. -/
def normalize360 (x : ℚ) : ℚ := jsMod (jsMod x 360 + 360) 360

/-- The slice width `sliceAngle = 360 / totalItems` (MetroRoulette.vue,
line 126). -/
def sliceAngle (n : ℕ) : ℚ := 360 / n

/-- The draw `targetIndex = Math.floor(Math.random() * totalItems)`
(line 129); `rand` stands for the `Math.random()` result. -/
def targetIndex (n : ℕ) (rand : ℚ) : ℕ := (⌊rand * n⌋).toNat

/-- The base target angle `360 - (targetIndex * sliceAngle)` (line 134). -/
def baseTargetAngle (n i : ℕ) : ℚ := 360 - i * sliceAngle n

/-- The extra-turn count
`fullRotations = minRotations + Math.random() * (maxRotations - minRotations)`
with `minRotations = 3`, `maxRotations = 5` (lines 137-139). -/
def fullRotations (rand : ℚ) : ℚ := 3 + rand * (5 - 3)

/-- The component state owned by the spin engine: the refs `rotation` and
`isAnimating` (lines 17-18). -/
structure WheelState where
  rotation : ℚ
  isAnimating : Bool
deriving DecidableEq, Repr

/-- The per-spin constants captured by the closure of `spinWheel`: the item
snapshot, the drawn target index, `startTime`, `startRotation`, `angleDiff`
and `duration` (lines 125-154). -/
structure SpinParams where
  items : List MetroStation
  targetIndex : ℕ
  startTime : ℚ
  startRotation : ℚ
  angleDiff : ℚ
  duration : ℚ
deriving DecidableEq, Repr

/-- The end rotation `endRotation = startRotation + angleDiff` (line 149). -/
def SpinParams.endRotation (p : SpinParams) : ℚ := p.startRotation + p.angleDiff

/-- The target item `props.items[targetIndex]` recorded at spin start
(line 130); `none` models JavaScript `undefined`. -/
def SpinParams.targetItem (p : SpinParams) : Option MetroStation :=
  p.items[p.targetIndex]?

/-- The function `spinWheel` (lines 120-154): it rejects the call when the
item list is empty or an animation is in flight; otherwise it draws the
target, computes the rotation interval and the duration, and leaves the
state with `isAnimating := true` together with the animation parameters.
Parameters `rand1` and `rand2` are the two `Math.random()` draws and `now`
is the `performance.now()` timestamp. -/
def spinWheel (items : List MetroStation) (st : WheelState)
    (rand1 rand2 now : ℚ) : WheelState × Option SpinParams :=
  if items.length = 0 ∨ st.isAnimating then (st, none)
  else
    let totalItems := items.length
    let tIdx := targetIndex totalItems rand1
    let currentAngle := normalize360 st.rotation
    let targetAngle := baseTargetAngle totalItems tIdx + 360 * fullRotations rand2
    let angleDiff0 := targetAngle - currentAngle
    let angleDiff := if angleDiff0 < 0 then angleDiff0 + 360 else angleDiff0
    let duration := 1000 * (1 + angleDiff / 360 * (1 / 2))
    ({ st with isAnimating := true },
     some { items := items, targetIndex := tIdx, startTime := now,
            startRotation := st.rotation, angleDiff := angleDiff,
            duration := duration })

/-- The fraction `progress = Math.min(elapsed / duration, 1)` (line 160). -/
def progressOf (elapsed duration : ℚ) : ℚ := min (elapsed / duration) 1

/-- The easing applied on every frame (lines 163-165). -/
def easedProgress (progress : ℚ) : ℚ :=
  if progress < 1 / 2 then 3 * progress * progress * progress
  else 1 - (-2 * progress + 2) ^ 4 / 2

/-- The rotation written by the frame at timestamp `t` before the
completion check: `startRotation + (angleDiff * easedProgress)`
(lines 167-170). -/
def frameRotation (p : SpinParams) (t : ℚ) : ℚ :=
  p.startRotation + p.angleDiff * easedProgress (progressOf (t - p.startTime) p.duration)

/-- The value `rotation` holds once the whole callback at `t` has run: on
the completing frame the code snaps it to `endRotation` (lines 180-185). -/
def rotationAfterFrame (p : SpinParams) (t : ℚ) : ℚ :=
  if progressOf (t - p.startTime) p.duration < 1 then frameRotation p t
  else p.endRotation

/-- The per-frame sector lookup of `animate` (lines 173-174): the index of
the item passed to `selectStation` for a live rotation `rot`. -/
def liveIndex (n : ℕ) (rot : ℚ) : ℕ :=
  let normalizedRotation := normalize360 rot
  let currentIndex := (⌊normalizedRotation / sliceAngle n⌋).toNat % n
  (n - currentIndex) % n

/-- The item highlighted at a live rotation (line 175). -/
def liveItem (items : List MetroStation) (rot : ℚ) : Option MetroStation :=
  items[liveIndex items.length rot]?

/-- The lookup of `updateCurrentItem` (lines 87-102), used by the rotation
watcher; it matches `liveIndex` except that the inner `% totalItems` is
omitted. -/
def updateCurrentItemIndex (n : ℕ) (rot : ℚ) : ℕ :=
  let normalizedRotation := normalize360 rot
  let index := (⌊normalizedRotation / sliceAngle n⌋).toNat
  (n - index) % n

/-- The sector-layout inverse described by the specification: the index `i`
whose sector `[i·w, (i+1)·w)` the value `(360 - rot) mod 360` falls in. -/
def pointerIndex (n : ℕ) (rot : ℚ) : ℕ :=
  (⌊emod360 (360 - rot) / sliceAngle n⌋).toNat

/-- Observable effects of the animation callbacks. -/
inductive AnimEvent
  | rotationSet (v : ℚ)
  | highlight (s : MetroStation)
  | animatingSet (b : Bool)
  | complete (s : MetroStation)
deriving DecidableEq, Repr

/-- The `selectStation` notification of one frame (lines 172-178): the
guard `if (newItem)` fires no event when the lookup is `undefined`. -/
def highlightEvents (p : SpinParams) (t : ℚ) : List AnimEvent :=
  match liveItem p.items (frameRotation p t) with
  | some s => [AnimEvent.highlight s]
  | none => []

/-- The completion emission (lines 187-189): the guard `if (targetItem)`
fires no event when the recorded item is `undefined`. -/
def completeEvents (p : SpinParams) : List AnimEvent :=
  match p.targetItem with
  | some s => [AnimEvent.complete s]
  | none => []

/-- Effects of one `animate` callback at timestamp `t` (lines 156-192),
together with the flag telling whether another frame is requested
(lines 180-181).  Writing `rotation` and `currentRotation` — two refs that
always carry the same value — is modelled as one `rotationSet` event. -/
def frameEvents (p : SpinParams) (t : ℚ) : List AnimEvent × Bool :=
  if progressOf (t - p.startTime) p.duration < 1 then
    (AnimEvent.rotationSet (frameRotation p t) :: highlightEvents p t, true)
  else
    (AnimEvent.rotationSet (frameRotation p t) :: highlightEvents p t ++
      [AnimEvent.rotationSet p.endRotation, AnimEvent.animatingSet false] ++
      completeEvents p, false)

/-- The animation loop run over a list of frame timestamps: each callback
requests the next frame until the completing one (line 181 versus
lines 183-191). -/
def runAnimate (p : SpinParams) : List ℚ → List AnimEvent
  | [] => []
  | t :: ts =>
    let fr := frameEvents p t
    if fr.2 then fr.1 ++ runAnimate p ts else fr.1

/-- The game mode from `src/types/index.ts`. -/
inductive GameMode
  | single
  | double
deriving DecidableEq, Repr

/-- The store state of `src/stores/metro.ts` that the `spin` action reads
and writes. -/
structure StoreState where
  mode : Option GameMode
  selectedLine : Option MetroLine
  selectedStation : Option MetroStation
  isSpinning : Bool
  metroData : List MetroLine
  stationIndex : List MetroStation
deriving DecidableEq, Repr

/-- The helper `getRandomElement` of `src/stores/metro.ts` (lines 6-10);
`rand` is the `Math.random()` draw and `none` models `null`. -/
def getRandomElement {α : Type} (array : List α) (rand : ℚ) : Option α :=
  if array.length = 0 then none
  else array[(⌊rand * array.length⌋).toNat]?

/-- The action `selectRandomLine` (lines 115-118). -/
def selectRandomLine (metroData : List MetroLine) (rand : ℚ) : Option MetroLine :=
  if metroData.length = 0 then none else getRandomElement metroData rand

/-- The action `selectRandomStationFromLine` (lines 121-126). -/
def selectRandomStationFromLine (stationIndex : List MetroStation)
    (line : MetroLine) (rand : ℚ) : Option MetroStation :=
  if line.stations.length = 0 then none
  else
    (getRandomElement line.stations rand).bind fun stationName =>
      stationIndex.find? fun s => s.name == stationName

/-- The action `selectRandomStation` (lines 129-132). -/
def selectRandomStation (stationIndex : List MetroStation) (rand : ℚ) :
    Option MetroStation :=
  if stationIndex.length = 0 then none else getRandomElement stationIndex rand

/-- The action `spin` of the store (lines 135-165).  The awaited 3000 ms
delay has no observable effect on the store state; `rand` is the random
draw consumed by whichever selection runs. -/
def storeSpin (st : StoreState) (rand : ℚ) : StoreState :=
  if st.isSpinning then st
  else
    let st1 : StoreState :=
      if st.mode = some GameMode.single then
        match selectRandomStation st.stationIndex rand with
        | some station =>
          { st with selectedStation := some station, selectedLine := none }
        | none => st
      else
        match st.selectedLine with
        | none => { st with selectedLine := selectRandomLine st.metroData rand }
        | some line =>
          match selectRandomStationFromLine st.stationIndex line rand with
          | some station => { st with selectedStation := some station }
          | none => st
    { st1 with isSpinning := false }

/-- Appending `{name: line.name, color: line.color}` to the record of the
station named `s`: the `station.lines.push` of `loadMetroData`
(`src/stores/metro.ts`, lines 89-95). -/
def pushLine (acc : List MetroStation) (s : String) (t : LineTag) :
    List MetroStation :=
  acc.map fun r => if r.name == s then { r with lines := r.lines ++ [t] } else r

/-- Processing one station name of one line in `loadMetroData`
(lines 79-96): skip empty names, insert an empty record on first sight,
then push the line reference. -/
def addStation (line : MetroLine) (acc : List MetroStation) (s : String) :
    List MetroStation :=
  if s = "" then acc
  else
    let acc1 :=
      if acc.any (fun r => r.name == s) then acc
      else acc ++ [{ name := s, lines := [] }]
    pushLine acc1 s { name := line.name, color := line.color }

/-- Processing one line of the dataset: the outer `forEach` of
`loadMetroData` (lines 73-97).  The guard for a missing or non-array
`stations` field is an untyped-input check that cannot fire in this typed
model. -/
def addLine (acc : List MetroStation) (line : MetroLine) : List MetroStation :=
  line.stations.foldl (addStation line) acc

/-- The derived station index built by `loadMetroData` (lines 71-99); the
JavaScript `Map` keeps insertion order, so `Array.from(map.values())` is an
insertion-ordered list of records. -/
def buildStationIndex (lines : List MetroLine) : List MetroStation :=
  lines.foldl addLine []

/-- The per-line station de-duplication of the conversion script
(`convert_metro_data.js`, lines 49-59): trim the names, drop the empty
ones, keep the first occurrence of each name. -/
def uniqueStationNames (stations : List String) : List String :=
  stations.foldl
    (fun acc st =>
      let name := st.trim
      if name ≠ "" ∧ name ∉ acc then acc ++ [name] else acc) []

/-- First occurrences of a list of names, in order: one entry per distinct
name, positioned where the name first appears. -/
def firstOccurrences (names : List String) : List String :=
  names.foldl (fun acc s => if s ∈ acc then acc else acc ++ [s]) []

/-- The line reference a line contributes to a station record. -/
def lineTagOf (line : MetroLine) : LineTag :=
  { name := line.name, color := line.color }

/-- Lookup of the (first) record carrying a given station name. -/
def lookupRec (acc : List MetroStation) (s : String) : Option MetroStation :=
  acc.find? fun r => r.name == s

/-- The raw difference `targetAngle - currentAngle` of `spinWheel`
(lines 133-143), before the negative-difference check of line 144. -/
def rawAngleDiff (n : ℕ) (rand1 rand2 rot : ℚ) : ℚ :=
  baseTargetAngle n (targetIndex n rand1) + 360 * fullRotations rand2 -
    normalize360 rot

/-- Lines recorded so far for a station name: the `lines` field of the
record found by `lookupRec`, or `[]` when the name is absent. -/
def tagsOf (acc : List MetroStation) (s : String) : List LineTag :=
  ((lookupRec acc s).map MetroStation.lines).getD []

/-- Sample station used in concrete instantiations. -/
def stA : MetroStation := { name := "A", lines := [] }

/-- Sample station used in concrete instantiations. -/
def stB : MetroStation := { name := "B", lines := [] }

/-- Sample station used in concrete instantiations. -/
def stC : MetroStation := { name := "C", lines := [] }

/-- Sample station used in concrete instantiations. -/
def stD : MetroStation := { name := "D", lines := [] }

/-- A four-item wheel, matching the concrete example of the
specification. -/
def items4 : List MetroStation := [stA, stB, stC, stD]

/-- Sample line used in concrete instantiations. -/
def lineOne : MetroLine :=
  { id := "l1", name := "1号线", color := "#F3D03E", stations := ["A", "B"] }

/-- Sample line used in concrete instantiations. -/
def lineTwo : MetroLine :=
  { id := "l2", name := "2号线", color := "#00629B", stations := ["B", "C"] }

/-- A sample store state in double mode with no line selected yet. -/
def storeDouble : StoreState :=
  { mode := some GameMode.double
    selectedLine := none
    selectedStation := some stB
    isSpinning := false
    metroData := [lineOne, lineTwo]
    stationIndex := [stA, stB, stC] }

/-- A dataset whose per-line station lists went through the conversion
script: every line's `stations` is replaced by its de-duplicated form. -/
def convertedLines (rawLines : List MetroLine) : List MetroLine :=
  rawLines.map fun l => { l with stations := uniqueStationNames l.stations }

/-- The animation parameters captured by an accepted spin on `items4`
starting at rest angle 0 with both random draws 0. -/
def spinP0 : SpinParams :=
  { items := items4, targetIndex := 0, startTime := 0, startRotation := 0,
    angleDiff := 1440, duration := 3000 }

/-- The animation parameters captured by an accepted spin on `items4`
starting at rest angle 0 with draws 1/2 (target index 2, item C) and 1/4
(3.5 extra turns). -/
def spinP1 : SpinParams :=
  { items := items4, targetIndex := 2, startTime := 0, startRotation := 0,
    angleDiff := 1440, duration := 3000 }

/-- The easing exactly as the specification words it, for comparison with
the code's `easedProgress`: `3·progress³` for `progress` below one half,
`1 - ((-2·progress + 2)^4)/2` from one half on. -/
def easedSpec (progress : ℚ) : ℚ :=
  if progress < 1 / 2 then 3 * progress ^ 3
  else 1 - (-2 * progress + 2) ^ 4 / 2

theorem emod360_nonneg (x : ℚ) : 0 ≤ emod360 x := by
  have h := Int.floor_le (x / 360)
  unfold emod360
  nlinarith

theorem emod360_lt (x : ℚ) : emod360 x < 360 := by
  have h := Int.lt_floor_add_one (x / 360)
  unfold emod360
  nlinarith

theorem emod360_add_int (x : ℚ) (k : ℤ) : emod360 (x + 360 * k) = emod360 x := by
  unfold emod360
  have h : (x + 360 * (k : ℚ)) / 360 = x / 360 + k := by ring
  rw [h, Int.floor_add_int]
  push_cast
  ring

theorem emod360_eq_self {x : ℚ} (h0 : 0 ≤ x) (h1 : x < 360) : emod360 x = x := by
  unfold emod360
  have h : ⌊x / 360⌋ = 0 := by
    rw [Int.floor_eq_zero_iff]
    constructor
    · positivity
    · rw [div_lt_one (by norm_num)]; simpa using h1
  rw [h]
  push_cast
  ring

theorem emod360_neg_eq {x : ℚ} (h0 : -360 ≤ x) (h1 : x < 0) : emod360 x = x + 360 := by
  have h : emod360 (x + 360 * (1 : ℤ)) = emod360 x := emod360_add_int x 1
  rw [show ((1 : ℤ) : ℚ) = 1 by norm_num, mul_one] at h
  rw [← h, emod360_eq_self (by linarith) (by linarith)]

theorem jsMod_nonneg_arg (a : ℚ) (h : 0 ≤ a) : jsMod a 360 = emod360 a := by
  unfold jsMod jsTrunc emod360
  rw [if_pos (by positivity)]

theorem jsMod_ge_neg (x : ℚ) : -360 ≤ jsMod x 360 := by
  unfold jsMod jsTrunc
  split
  · have h := Int.floor_le (x / 360)
    nlinarith
  · have h := Int.ceil_lt_add_one (x / 360)
    nlinarith

theorem jsMod_int_offset (x : ℚ) : ∃ k : ℤ, jsMod x 360 = x + 360 * k := by
  refine ⟨-jsTrunc (x / 360), ?_⟩
  unfold jsMod
  push_cast
  ring

theorem normalize360_eq (x : ℚ) : normalize360 x = emod360 x := by
  obtain ⟨k, hk⟩ := jsMod_int_offset x
  have h0 : (0 : ℚ) ≤ jsMod x 360 + 360 := by linarith [jsMod_ge_neg x]
  unfold normalize360
  rw [jsMod_nonneg_arg _ h0, hk]
  have h : x + 360 * (k : ℚ) + 360 = x + 360 * ((k + 1 : ℤ) : ℚ) := by push_cast; ring
  rw [h, emod360_add_int]

theorem normalize360_nonneg (x : ℚ) : 0 ≤ normalize360 x := by
  rw [normalize360_eq]; exact emod360_nonneg x

theorem normalize360_lt (x : ℚ) : normalize360 x < 360 := by
  rw [normalize360_eq]; exact emod360_lt x

/-- Subtracting a normalized angle instead of the raw one does not change
the class mod 360: `x - normalize360 x` is an integer multiple of 360. -/
theorem emod360_sub_normalize (a x : ℚ) :
    emod360 (a - normalize360 x) = emod360 (a - x) := by
  rw [normalize360_eq]
  have h : a - emod360 x = a - x + 360 * ((⌊x / 360⌋ : ℤ) : ℚ) := by
    unfold emod360; ring
  rw [h, emod360_add_int]

theorem targetIndex_lt (n : ℕ) (hn : 0 < n) {r : ℚ} (h1 : 0 ≤ r) (h2 : r < 1) :
    targetIndex n r < n := by
  have hn' : (0 : ℚ) < n := by exact_mod_cast hn
  have hfl : ⌊r * n⌋ < (n : ℤ) := by
    rw [Int.floor_lt]
    push_cast
    nlinarith
  have h0 : 0 ≤ ⌊r * (n : ℚ)⌋ := Int.floor_nonneg.mpr (by positivity)
  unfold targetIndex
  omega

theorem baseTargetAngle_pos (n i : ℕ) (hi : i < n) :
    0 < baseTargetAngle n i ∧ baseTargetAngle n i ≤ 360 := by
  have hn' : (0 : ℚ) < n := by exact_mod_cast lt_of_le_of_lt (Nat.zero_le i) hi
  have hw : (0 : ℚ) < 360 / n := by positivity
  have hin : (i : ℚ) < n := by exact_mod_cast hi
  have hkey : (i : ℚ) * (360 / n) < 360 := by
    calc (i : ℚ) * (360 / n) < n * (360 / n) := by
          exact mul_lt_mul_of_pos_right hin hw
      _ = 360 := by field_simp
  have hnn : 0 ≤ (i : ℚ) * (360 / n) := by positivity
  unfold baseTargetAngle sliceAngle
  constructor <;> linarith

theorem emod360_360 : emod360 (360 : ℚ) = 0 := by norm_num [emod360]

theorem rawAngleDiff_gt (n : ℕ) {r1 r2 : ℚ} (rot : ℚ) (hn : 0 < n)
    (h1 : 0 ≤ r1) (h2 : r1 < 1) (h3 : 0 ≤ r2) :
    720 < rawAngleDiff n r1 r2 rot := by
  obtain ⟨hb0, hb1⟩ := baseTargetAngle_pos n (targetIndex n r1) (targetIndex_lt n hn h1 h2)
  have hc0 := normalize360_nonneg rot
  have hc1 := normalize360_lt rot
  unfold rawAngleDiff fullRotations at *
  nlinarith

theorem rawAngleDiff_ge_emod (n : ℕ) {r1 r2 : ℚ} (rot : ℚ) (hn : 0 < n)
    (h1 : 0 ≤ r1) (h2 : r1 < 1) (h3 : 0 ≤ r2) :
    720 + emod360 (baseTargetAngle n (targetIndex n r1) - rot) ≤
      rawAngleDiff n r1 r2 rot := by
  obtain ⟨hb0, hb1⟩ := baseTargetAngle_pos n (targetIndex n r1) (targetIndex_lt n hn h1 h2)
  rw [← emod360_sub_normalize _ rot]
  set b := baseTargetAngle n (targetIndex n r1) with hb
  set c := normalize360 rot with hc
  have hc0 : 0 ≤ c := normalize360_nonneg rot
  have hc1 : c < 360 := normalize360_lt rot
  unfold rawAngleDiff fullRotations
  rw [← hb, ← hc]
  by_cases hneg : b - c < 0
  · rw [emod360_neg_eq (by linarith) hneg]
    nlinarith
  · by_cases hlt : b - c < 360
    · rw [emod360_eq_self (by linarith) hlt]
      nlinarith
    · have heq : b - c = 360 := le_antisymm (by linarith) (by linarith)
      rw [heq, emod360_360]
      nlinarith

theorem spinWheel_accepted (items : List MetroStation) (st : WheelState)
    (rand1 rand2 now : ℚ) (hne : items.length ≠ 0) (hanim : st.isAnimating = false) :
    spinWheel items st rand1 rand2 now =
      ({ st with isAnimating := true },
       some { items := items
              targetIndex := targetIndex items.length rand1
              startTime := now
              startRotation := st.rotation
              angleDiff :=
                if rawAngleDiff items.length rand1 rand2 st.rotation < 0 then
                  rawAngleDiff items.length rand1 rand2 st.rotation + 360
                else rawAngleDiff items.length rand1 rand2 st.rotation
              duration :=
                1000 * (1 +
                  (if rawAngleDiff items.length rand1 rand2 st.rotation < 0 then
                    rawAngleDiff items.length rand1 rand2 st.rotation + 360
                  else rawAngleDiff items.length rand1 rand2 st.rotation) / 360 * (1 / 2)) }) := by
  unfold spinWheel rawAngleDiff
  rw [if_neg]
  simp [hanim, hne]

theorem spinWheel_angleDiff_gt (items : List MetroStation) (st : WheelState)
    {rand1 rand2 : ℚ} (now : ℚ) (hne : items.length ≠ 0)
    (hanim : st.isAnimating = false) (h1 : 0 ≤ rand1) (h2 : rand1 < 1)
    (h3 : 0 ≤ rand2) {p : SpinParams}
    (hp : (spinWheel items st rand1 rand2 now).2 = some p) :
    p.angleDiff = rawAngleDiff items.length rand1 rand2 st.rotation ∧
      720 < p.angleDiff := by
  have hn : 0 < items.length := Nat.pos_of_ne_zero hne
  have hraw := rawAngleDiff_gt items.length st.rotation hn h1 h2 h3
  rw [spinWheel_accepted items st rand1 rand2 now hne hanim] at hp
  rw [if_neg (by linarith)] at hp
  cases hp
  exact ⟨rfl, by simpa using hraw⟩

theorem easedProgress_le_one {p : ℚ} (hp : p ≤ 1) : easedProgress p ≤ 1 := by
  unfold easedProgress
  split
  · rename_i h
    nlinarith [sq_nonneg (p + 1 / 4), sq_nonneg p]
  · have h0 : (0 : ℚ) ≤ -2 * p + 2 := by linarith
    nlinarith [pow_nonneg h0 4]

theorem easedProgress_mono {p q : ℚ} (hpq : p ≤ q) (hq : q ≤ 1) :
    easedProgress p ≤ easedProgress q := by
  unfold easedProgress
  by_cases hp2 : p < 1 / 2
  · by_cases hq2 : q < 1 / 2
    · rw [if_pos hp2, if_pos hq2]
      nlinarith [sq_nonneg (p + q), sq_nonneg (p - q), sq_nonneg p, sq_nonneg q]
    · rw [if_pos hp2, if_neg hq2]
      have h1 : (0 : ℚ) ≤ -2 * q + 2 := by linarith
      have h2 : -2 * q + 2 ≤ 1 := by linarith [not_lt.mp hq2]
      have h3 : (-2 * q + 2) ^ 4 ≤ 1 := pow_le_one₀ h1 h2
      nlinarith [sq_nonneg (p + 1 / 4)]
  · have hq2 : ¬ q < 1 / 2 := by
      intro h; exact hp2 (lt_of_le_of_lt hpq h)
    rw [if_neg hp2, if_neg hq2]
    have h0 : (0 : ℚ) ≤ -2 * q + 2 := by linarith
    have h1 : -2 * q + 2 ≤ -2 * p + 2 := by linarith
    have h2 := pow_le_pow_left₀ h0 h1 4
    linarith

theorem progressOf_le_one (elapsed duration : ℚ) :
    progressOf elapsed duration ≤ 1 := min_le_right _ _

theorem progressOf_mono {e1 e2 : ℚ} (d : ℚ) (hd : 0 < d) (h : e1 ≤ e2) :
    progressOf e1 d ≤ progressOf e2 d := by
  unfold progressOf
  exact min_le_min (by apply div_le_div_of_nonneg_right h hd.le  ) le_rfl

theorem rotationAfterFrame_eq (p : SpinParams) (t : ℚ) :
    rotationAfterFrame p t = frameRotation p t := by
  unfold rotationAfterFrame
  split
  · rfl
  · rename_i h
    have h1 : progressOf (t - p.startTime) p.duration = 1 :=
      le_antisymm (progressOf_le_one _ _) (not_lt.mp h)
    unfold frameRotation SpinParams.endRotation
    rw [h1]
    norm_num [easedProgress]

theorem rotationAfterFrame_mono (p : SpinParams) (hd : 0 < p.duration)
    (ha : 0 ≤ p.angleDiff) {t1 t2 : ℚ} (h : t1 ≤ t2) :
    rotationAfterFrame p t1 ≤ rotationAfterFrame p t2 := by
  rw [rotationAfterFrame_eq, rotationAfterFrame_eq]
  unfold frameRotation
  have hmono := progressOf_mono p.duration hd (by linarith : t1 - p.startTime ≤ t2 - p.startTime)
  have heased := easedProgress_mono hmono (progressOf_le_one _ _)
  nlinarith

theorem pushLine_name (s : String) (t : LineTag) (r : MetroStation) :
    (if r.name == s then { r with lines := r.lines ++ [t] } else r).name = r.name := by
  split <;> rfl

theorem pushLine_names (acc : List MetroStation) (s : String) (t : LineTag) :
    (pushLine acc s t).map (fun r => r.name) = acc.map (fun r => r.name) := by
  unfold pushLine
  rw [List.map_map]
  apply List.map_congr_left
  intro r _
  exact pushLine_name s t r

theorem lookupRec_pushLine (acc : List MetroStation) (s x : String) (t : LineTag) :
    lookupRec (pushLine acc s t) x =
      (lookupRec acc x).map
        (fun r => if r.name == s then { r with lines := r.lines ++ [t] } else r) := by
  unfold lookupRec pushLine
  rw [List.find?_map]
  have h : ((fun r : MetroStation => r.name == x) ∘ fun r : MetroStation =>
      if r.name == s then { r with lines := r.lines ++ [t] } else r) =
      fun r : MetroStation => r.name == x := by
    funext r
    simp only [Function.comp_apply]
    rw [pushLine_name]
  rw [h]

theorem lookupRec_pushLine_ne (acc : List MetroStation) {s x : String}
    (t : LineTag) (hx : x ≠ s) :
    lookupRec (pushLine acc s t) x = lookupRec acc x := by
  rw [lookupRec_pushLine]
  cases hfind : lookupRec acc x with
  | none => rfl
  | some r =>
    have hr : r.name = x := by
      have := List.find?_some hfind
      simpa using this
    have hcond : ¬((r.name == s) = true) := by
      rw [hr]
      simp [hx]
    simp only [Option.map_some']
    rw [if_neg hcond]

theorem lookupRec_pushLine_eq (acc : List MetroStation) {s x : String}
    (t : LineTag) (hx : x = s) :
    lookupRec (pushLine acc s t) x =
      (lookupRec acc x).map (fun r => { r with lines := r.lines ++ [t] }) := by
  subst hx
  rw [lookupRec_pushLine]
  cases hfind : lookupRec acc x with
  | none => rfl
  | some r =>
    have hr : r.name = x := by
      have := List.find?_some hfind
      simpa using this
    have hcond : (r.name == x) = true := by
      rw [hr]
      exact beq_self_eq_true x
    simp only [Option.map_some']
    rw [if_pos hcond]

theorem anyName_iff (acc : List MetroStation) (s : String) :
    acc.any (fun r => r.name == s) = true ↔ s ∈ acc.map (fun r => r.name) := by
  rw [List.any_eq_true]
  simp only [List.mem_map, beq_iff_eq]

theorem lookupRec_eq_none_iff (acc : List MetroStation) (s : String) :
    lookupRec acc s = none ↔ s ∉ acc.map (fun r => r.name) := by
  unfold lookupRec
  rw [List.find?_eq_none]
  simp only [List.mem_map, beq_iff_eq, not_exists, not_and]

theorem addStation_names (line : MetroLine) (acc : List MetroStation) (s : String) :
    (addStation line acc s).map (fun r => r.name) =
      if s = "" ∨ s ∈ acc.map (fun r => r.name) then acc.map (fun r => r.name)
      else acc.map (fun r => r.name) ++ [s] := by
  unfold addStation
  by_cases hs : s = ""
  · simp [hs]
  · rw [if_neg hs]
    by_cases hmem : s ∈ acc.map (fun r => r.name)
    · rw [if_pos ((anyName_iff acc s).mpr hmem), pushLine_names,
        if_pos (Or.inr hmem)]
    · rw [if_neg (fun h => hmem ((anyName_iff acc s).mp h)), pushLine_names,
        if_neg (by push_neg; exact ⟨hs, hmem⟩), List.map_append]
      rfl

theorem addStation_lookup_ne (line : MetroLine) (acc : List MetroStation)
    {s x : String} (hx : x ≠ s) :
    lookupRec (addStation line acc s) x = lookupRec acc x := by
  unfold addStation
  by_cases hs : s = ""
  · simp [hs]
  · rw [if_neg hs]
    split
    · exact lookupRec_pushLine_ne _ _ hx
    · rw [lookupRec_pushLine_ne _ _ hx]
      unfold lookupRec
      rw [List.find?_append]
      have h1 : List.find? (fun r => r.name == x)
          [({ name := s, lines := [] } : MetroStation)] = none := by
        simp [Ne.symm hx]
      rw [h1]
      exact Option.or_none

theorem addStation_lookup_eq (line : MetroLine) (acc : List MetroStation)
    {s : String} (hs : s ≠ "") :
    lookupRec (addStation line acc s) s =
      some { name := s, lines := tagsOf acc s ++ [lineTagOf line] } := by
  unfold addStation
  rw [if_neg hs]
  split
  · rename_i hany
    obtain ⟨r, hr⟩ : ∃ r, lookupRec acc s = some r := by
      cases hfind : lookupRec acc s with
      | none =>
        exact absurd ((anyName_iff acc s).mp hany)
          ((lookupRec_eq_none_iff acc s).mp hfind)
      | some r => exact ⟨r, rfl⟩
    have hname : r.name = s := by
      have := List.find?_some hr
      simpa using this
    rw [lookupRec_pushLine_eq _ _ rfl, hr]
    unfold tagsOf lineTagOf
    rw [hr]
    simp [hname]
  · rw [lookupRec_pushLine_eq _ _ rfl]
    rename_i hany
    have hnone : lookupRec acc s = none :=
      (lookupRec_eq_none_iff acc s).mpr
        (fun h => hany ((anyName_iff acc s).mpr h))
    have happ : lookupRec (acc ++ [({ name := s, lines := [] } : MetroStation)]) s =
        some { name := s, lines := [] } := by
      unfold lookupRec at hnone ⊢
      rw [List.find?_append, hnone]
      simp
    rw [happ]
    unfold tagsOf lineTagOf
    rw [hnone]
    simp

theorem tagsOf_addStation_ne (line : MetroLine) (acc : List MetroStation)
    {s x : String} (hx : x ≠ s) :
    tagsOf (addStation line acc s) x = tagsOf acc x := by
  unfold tagsOf
  rw [addStation_lookup_ne line acc hx]

theorem foldl_addStation_lookup_ne (line : MetroLine) (ss : List String)
    (acc : List MetroStation) (x : String) :
    x ∉ ss ∨ x = "" →
    lookupRec (ss.foldl (addStation line) acc) x = lookupRec acc x := by
  induction ss generalizing acc with
  | nil => intro _; rfl
  | cons s rest ih =>
    intro hx
    rw [List.foldl_cons]
    have hstep : lookupRec (addStation line acc s) x = lookupRec acc x := by
      by_cases hse : s = ""
      · unfold addStation
        rw [if_pos hse]
      · have hxs : x ≠ s := by
          rcases hx with h | h
          · exact fun he => h (he ▸ List.mem_cons_self s rest)
          · exact fun he => hse (he ▸ h)
        exact addStation_lookup_ne line acc hxs
    have hx' : x ∉ rest ∨ x = "" := by
      rcases hx with h | h
      · exact Or.inl (fun hm => h (List.mem_cons_of_mem s hm))
      · exact Or.inr h
    rw [ih _ hx', hstep]

theorem foldl_addStation_lookup_mem (line : MetroLine) (ss : List String)
    (acc : List MetroStation) (x : String) :
    ss.Nodup → x ∈ ss → x ≠ "" →
    lookupRec (ss.foldl (addStation line) acc) x =
      some { name := x, lines := tagsOf acc x ++ [lineTagOf line] } := by
  induction ss generalizing acc with
  | nil => intro _ hmem _; cases hmem
  | cons s rest ih =>
    intro hnd hmem hne
    rw [List.foldl_cons]
    by_cases hxs : x = s
    · subst hxs
      have hnotin : x ∉ rest := (List.nodup_cons.mp hnd).1
      rw [foldl_addStation_lookup_ne line rest _ x (Or.inl hnotin)]
      exact addStation_lookup_eq line acc hne
    · have hmem' : x ∈ rest := by
        rcases List.mem_cons.mp hmem with h | h
        · exact absurd h hxs
        · exact h
      rw [ih _ (List.nodup_cons.mp hnd).2 hmem' hne,
        tagsOf_addStation_ne line acc hxs]

theorem tagsOf_addLine (line : MetroLine) (acc : List MetroStation) (x : String)
    (hnd : line.stations.Nodup) (hne : x ≠ "") :
    tagsOf (addLine acc line) x =
      tagsOf acc x ++ if x ∈ line.stations then [lineTagOf line] else [] := by
  unfold addLine
  by_cases hmem : x ∈ line.stations
  · rw [if_pos hmem]
    unfold tagsOf
    rw [foldl_addStation_lookup_mem line line.stations acc x hnd hmem hne]
    rfl
  · rw [if_neg hmem, List.append_nil]
    unfold tagsOf
    rw [foldl_addStation_lookup_ne line line.stations acc x (Or.inl hmem)]

theorem tagsOf_foldl_addLine (L : List MetroLine) (acc : List MetroStation)
    (x : String) :
    (∀ l ∈ L, l.stations.Nodup) → x ≠ "" →
    tagsOf (L.foldl addLine acc) x =
      tagsOf acc x ++ (L.filter (fun l => x ∈ l.stations)).map lineTagOf := by
  induction L generalizing acc with
  | nil => intro _ _; simp
  | cons l rest ih =>
    intro hnd hne
    rw [List.foldl_cons,
      ih _ (fun m hm => hnd m (List.mem_cons_of_mem l hm)) hne,
      tagsOf_addLine l acc x (hnd l (List.mem_cons_self l rest)) hne]
    by_cases hmem : x ∈ l.stations
    · rw [if_pos hmem, List.filter_cons_of_pos (by simpa using hmem),
        List.map_cons, List.append_assoc]
      rfl
    · rw [if_neg hmem, List.filter_cons_of_neg (by simpa using hmem),
        List.append_nil]

theorem foldl_addStation_names (line : MetroLine) (ss : List String)
    (acc : List MetroStation) :
    (ss.foldl (addStation line) acc).map (fun r => r.name) =
      ss.foldl (fun ns s => if s = "" ∨ s ∈ ns then ns else ns ++ [s])
        (acc.map (fun r => r.name)) := by
  induction ss generalizing acc with
  | nil => rfl
  | cons s rest ih =>
    simp only [List.foldl_cons]
    rw [ih, addStation_names]

theorem foldl_addLine_names (L : List MetroLine) (acc : List MetroStation) :
    (L.foldl addLine acc).map (fun r => r.name) =
      (L.flatMap (fun l => l.stations)).foldl
        (fun ns s => if s = "" ∨ s ∈ ns then ns else ns ++ [s])
        (acc.map (fun r => r.name)) := by
  induction L generalizing acc with
  | nil => rfl
  | cons l rest ih =>
    simp only [List.foldl_cons, List.flatMap_cons, List.foldl_append]
    rw [ih]
    congr 1
    exact foldl_addStation_names l l.stations acc

theorem foldl_names_step_eq (ss : List String) (ns : List String)
    (h : ∀ s ∈ ss, s ≠ "") :
    ss.foldl (fun ns s => if s = "" ∨ s ∈ ns then ns else ns ++ [s]) ns =
      ss.foldl (fun ns s => if s ∈ ns then ns else ns ++ [s]) ns := by
  induction ss generalizing ns with
  | nil => rfl
  | cons s rest ih =>
    simp only [List.foldl_cons]
    have hs : s ≠ "" := h s (List.mem_cons_self s rest)
    have hstep : (if s = "" ∨ s ∈ ns then ns else ns ++ [s]) =
        (if s ∈ ns then ns else ns ++ [s]) := by
      by_cases hm : s ∈ ns
      · rw [if_pos (Or.inr hm), if_pos hm]
      · rw [if_neg (by push_neg; exact ⟨hs, hm⟩), if_neg hm]
    rw [hstep, ih _ (fun a ha => h a (List.mem_cons_of_mem s ha))]

theorem foldl_firstOcc_nodup (ss : List String) (ns : List String)
    (h : ns.Nodup) :
    (ss.foldl (fun ns s => if s ∈ ns then ns else ns ++ [s]) ns).Nodup := by
  induction ss generalizing ns with
  | nil => exact h
  | cons s rest ih =>
    simp only [List.foldl_cons]
    apply ih
    by_cases hm : s ∈ ns
    · rw [if_pos hm]; exact h
    · rw [if_neg hm]
      refine h.append (List.nodup_singleton s) ?_
      intro a ha hb
      rw [List.mem_singleton] at hb
      exact hm (hb ▸ ha)

theorem firstOccurrences_nodup (ss : List String) :
    (firstOccurrences ss).Nodup :=
  foldl_firstOcc_nodup ss [] List.nodup_nil

theorem mem_foldl_firstOcc (ss : List String) (ns : List String) (x : String) :
    x ∈ ss.foldl (fun ns s => if s ∈ ns then ns else ns ++ [s]) ns →
      x ∈ ns ∨ x ∈ ss := by
  induction ss generalizing ns with
  | nil => intro h; exact Or.inl h
  | cons s rest ih =>
    intro h
    simp only [List.foldl_cons] at h
    rcases ih _ h with h1 | h1
    · by_cases hm : s ∈ ns
      · rw [if_pos hm] at h1
        exact Or.inl h1
      · rw [if_neg hm] at h1
        rcases List.mem_append.mp h1 with h2 | h2
        · exact Or.inl h2
        · rw [List.mem_singleton] at h2
          exact Or.inr (h2 ▸ List.mem_cons_self s rest)
    · exact Or.inr (List.mem_cons_of_mem s h1)

theorem mem_firstOccurrences (ss : List String) (x : String)
    (h : x ∈ firstOccurrences ss) : x ∈ ss := by
  rcases mem_foldl_firstOcc ss [] x h with h1 | h1
  · cases h1
  · exact h1

theorem lookupRec_self (acc : List MetroStation)
    (hnd : (acc.map (fun r => r.name)).Nodup) {r : MetroStation}
    (hr : r ∈ acc) : lookupRec acc r.name = some r := by
  induction acc with
  | nil => cases hr
  | cons a tl ih =>
    rw [List.map_cons, List.nodup_cons] at hnd
    rcases List.mem_cons.mp hr with h | h
    · subst h
      unfold lookupRec
      rw [List.find?_cons_of_pos _ (by simp)]
    · have hne : a.name ≠ r.name := by
        intro he
        exact hnd.1 (he ▸ List.mem_map_of_mem _ h)
      unfold lookupRec
      rw [List.find?_cons_of_neg _ (by simp [hne])]
      exact ih hnd.2 h

theorem uniqueStationNames_aux (ss : List String) (acc : List String)
    (h1 : acc.Nodup) (h2 : ∀ s ∈ acc, s ≠ "") :
    (ss.foldl
        (fun acc st =>
          let name := st.trim
          if name ≠ "" ∧ name ∉ acc then acc ++ [name] else acc) acc).Nodup ∧
      ∀ s ∈ ss.foldl
          (fun acc st =>
            let name := st.trim
            if name ≠ "" ∧ name ∉ acc then acc ++ [name] else acc) acc,
        s ≠ "" := by
  induction ss generalizing acc with
  | nil => exact ⟨h1, h2⟩
  | cons s rest ih =>
    simp only [List.foldl_cons]
    by_cases hc : s.trim ≠ "" ∧ s.trim ∉ acc
    · rw [if_pos hc]
      refine ih _ ?_ ?_
      · refine h1.append (List.nodup_singleton s.trim) ?_
        intro a ha hb
        rw [List.mem_singleton] at hb
        exact hc.2 (hb ▸ ha)
      · intro a ha
        rcases List.mem_append.mp ha with h | h
        · exact h2 a h
        · rw [List.mem_singleton] at h
          exact h ▸ hc.1
    · rw [if_neg hc]
      exact ih _ h1 h2

theorem uniqueStationNames_nodup (ss : List String) :
    (uniqueStationNames ss).Nodup :=
  (uniqueStationNames_aux ss [] List.nodup_nil (by intro s h; cases h)).1

theorem uniqueStationNames_ne_empty (ss : List String) :
    ∀ s ∈ uniqueStationNames ss, s ≠ "" :=
  (uniqueStationNames_aux ss [] List.nodup_nil (by intro s h; cases h)).2

/-- C4: a rejected `spin()` — empty item list, or `isAnimating` already
true — returns the state unchanged and produces no animation parameters,
so no animation starts, no completion can ever be emitted for the call,
`isAnimating` keeps its value (false stays false on empty input), and the
trajectory of a running spin, a pure function of the already-captured
parameters, is unaffected. -/
theorem metro_c4_reject_noop (items : List MetroStation) (st : WheelState)
    (rand1 rand2 now : ℚ) (h : items.length = 0 ∨ st.isAnimating = true) :
    spinWheel items st rand1 rand2 now = (st, none) := by
  unfold spinWheel
  rcases h with h | h
  · rw [if_pos (Or.inl h)]
  · rw [if_pos (Or.inr h)]

/-- Witness for C4: a call on the empty list and a re-entrant call, both
returning the untouched state with no animation parameters. -/
theorem metro_c4_witness :
    spinWheel [] { rotation := 5, isAnimating := false } (1 / 3) (1 / 3) 7 =
      ({ rotation := 5, isAnimating := false }, none) ∧
    spinWheel items4 { rotation := 10, isAnimating := true } 0 0 0 =
      ({ rotation := 10, isAnimating := true }, none) :=
  ⟨metro_c4_reject_noop [] _ _ _ _ (Or.inl rfl),
   metro_c4_reject_noop items4 _ _ _ _ (Or.inr rfl)⟩

/-- C10: for every accepted spin the raw difference
`targetAngle - currentAngle` is already strictly positive — indeed larger
than 2×360 — before the negative-difference check, so the branch adding
360 never fires. -/
theorem metro_c10_dead_branch (items : List MetroStation) (rot : ℚ)
    {rand1 rand2 : ℚ} (hne : items ≠ []) (h1 : 0 ≤ rand1) (h2 : rand1 < 1)
    (h3 : 0 ≤ rand2) (_h4 : rand2 < 1) :
    0 < rawAngleDiff items.length rand1 rand2 rot ∧
    2 * 360 < rawAngleDiff items.length rand1 rand2 rot ∧
    (if rawAngleDiff items.length rand1 rand2 rot < 0 then
        rawAngleDiff items.length rand1 rand2 rot + 360
      else rawAngleDiff items.length rand1 rand2 rot) =
      rawAngleDiff items.length rand1 rand2 rot := by
  have hn : 0 < items.length := List.length_pos.mpr hne
  have h := rawAngleDiff_gt items.length rot hn h1 h2 h3
  exact ⟨by linarith, by linarith, if_neg (by linarith)⟩

/-- Witness for C10 at a concrete accepted spin. -/
theorem metro_c10_witness :
    0 < rawAngleDiff items4.length (1 / 2) (1 / 4) 1234 ∧
    2 * 360 < rawAngleDiff items4.length (1 / 2) (1 / 4) 1234 ∧
    (if rawAngleDiff items4.length (1 / 2) (1 / 4) 1234 < 0 then
        rawAngleDiff items4.length (1 / 2) (1 / 4) 1234 + 360
      else rawAngleDiff items4.length (1 / 2) (1 / 4) 1234) =
      rawAngleDiff items4.length (1 / 2) (1 / 4) 1234 :=
  metro_c10_dead_branch items4 1234 (by simp [items4])
    (by norm_num) (by norm_num) (by norm_num) (by norm_num)

/-- C6: with a non-empty item list and a random draw in `[0, 1)`, the drawn
`targetIndex` is in range and `targetItem` is defined, and the per-frame
live sector index is in range for every rotation, so no array access of
the spin path is out of bounds. -/
theorem metro_c6_index_range (items : List MetroStation) {rand1 : ℚ}
    (hne : items ≠ []) (h1 : 0 ≤ rand1) (h2 : rand1 < 1) :
    targetIndex items.length rand1 < items.length ∧
    (items[targetIndex items.length rand1]?).isSome ∧
    ∀ rot : ℚ, liveIndex items.length rot < items.length ∧
      (liveItem items rot).isSome := by
  have hn : 0 < items.length := List.length_pos.mpr hne
  have ht := targetIndex_lt items.length hn h1 h2
  have hlive : ∀ rot : ℚ, liveIndex items.length rot < items.length := by
    intro rot
    unfold liveIndex
    exact Nat.mod_lt _ hn
  refine ⟨ht, ?_, ?_⟩
  · rw [List.getElem?_eq_getElem ht]
    rfl
  · intro rot
    refine ⟨hlive rot, ?_⟩
    unfold liveItem
    rw [List.getElem?_eq_getElem (hlive rot)]
    rfl

/-- Witness for C6 at a concrete wheel and draw. -/
theorem metro_c6_witness :
    targetIndex items4.length (1 / 3) < items4.length ∧
    (items4[targetIndex items4.length (1 / 3)]?).isSome ∧
    (liveIndex items4.length 45 < items4.length ∧
      (liveItem items4 45).isSome) :=
  ⟨(@metro_c6_index_range items4 (1 / 3) (by simp [items4]) (by norm_num)
      (by norm_num)).1,
   (@metro_c6_index_range items4 (1 / 3) (by simp [items4]) (by norm_num)
      (by norm_num)).2.1,
   (@metro_c6_index_range items4 (1 / 3) (by simp [items4]) (by norm_num)
      (by norm_num)).2.2 45⟩

/-- C7: on every frame the written rotation equals
`startAngle + angleDelta * eased` where `eased` is the specification's
easing of `progress = min(elapsed / duration, 1)`: `3·progress³` below
one half, `1 - ((-2·progress + 2)^4)/2` from one half on.  The completing
frame's snap writes the same value, since the easing of progress 1 is
exactly 1. -/
theorem metro_c7_easing (p : SpinParams) (t : ℚ) :
    rotationAfterFrame p t =
      p.startRotation + p.angleDiff *
        easedSpec (min ((t - p.startTime) / p.duration) 1) := by
  rw [rotationAfterFrame_eq]
  unfold frameRotation progressOf easedProgress easedSpec
  split
  · ring
  · ring

/-- C9: a store `spin` in double mode with no line selected yet stores the
randomly drawn line (defined, for non-empty data and a draw in `[0, 1)`)
as `selectedLine`, leaves the selected station, the mode, the dataset and
the station index untouched, and ends with `isSpinning = false` without
chaining into a second spin. -/
theorem metro_c9_double_mode (st : StoreState) {rand : ℚ}
    (hspin : st.isSpinning = false) (hmode : st.mode = some GameMode.double)
    (hline : st.selectedLine = none) (hdata : st.metroData ≠ [])
    (h1 : 0 ≤ rand) (h2 : rand < 1) :
    storeSpin st rand =
      { st with selectedLine := selectRandomLine st.metroData rand } ∧
    (selectRandomLine st.metroData rand).isSome := by
  constructor
  · unfold storeSpin
    obtain ⟨m, sl, ss, isp, md, si⟩ := st
    have hisp : isp = false := hspin
    have hm : m = some GameMode.double := hmode
    have hl : sl = none := hline
    subst hisp
    subst hm
    subst hl
    rw [if_neg Bool.false_ne_true]
    rw [if_neg (by simp)]
  · have hn : 0 < st.metroData.length := List.length_pos.mpr hdata
    have hlen : st.metroData.length ≠ 0 := Nat.pos_iff_ne_zero.mp hn
    unfold selectRandomLine getRandomElement
    rw [if_neg hlen, if_neg hlen]
    have hlt := targetIndex_lt st.metroData.length hn h1 h2
    unfold targetIndex at hlt
    rw [List.getElem?_eq_getElem hlt]
    rfl

/-- Witness for C9 on a concrete double-mode store. -/
theorem metro_c9_witness :
    storeSpin storeDouble (1 / 2) =
      { storeDouble with
        selectedLine := selectRandomLine storeDouble.metroData (1 / 2) } ∧
    (selectRandomLine storeDouble.metroData (1 / 2)).isSome :=
  metro_c9_double_mode storeDouble rfl rfl rfl (by simp [storeDouble])
    (by norm_num) (by norm_num)

/-- C8: after the per-line de-duplication the conversion script performs,
the station index built by `loadMetroData` holds exactly one record per
distinct station name (record names are the distinct names in order of
first appearance, without duplicates), and each record lists every line
that serves the station, one entry per line, in order of first
appearance. -/
theorem metro_c8_station_index (rawLines : List MetroLine) :
    ((buildStationIndex (convertedLines rawLines)).map (fun r => r.name)).Nodup ∧
    (buildStationIndex (convertedLines rawLines)).map (fun r => r.name) =
      firstOccurrences
        ((convertedLines rawLines).flatMap (fun l => l.stations)) ∧
    ∀ r ∈ buildStationIndex (convertedLines rawLines),
      r.lines =
        ((convertedLines rawLines).filter
          (fun l => r.name ∈ l.stations)).map lineTagOf := by
  have hnod : ∀ l ∈ convertedLines rawLines, l.stations.Nodup := by
    intro l hl
    obtain ⟨m, _, rfl⟩ := List.mem_map.mp hl
    exact uniqueStationNames_nodup m.stations
  have hne : ∀ s ∈ (convertedLines rawLines).flatMap (fun l => l.stations),
      s ≠ "" := by
    intro s hs
    obtain ⟨l, hl, hsl⟩ := List.mem_flatMap.mp hs
    obtain ⟨m, _, rfl⟩ := List.mem_map.mp hl
    exact uniqueStationNames_ne_empty m.stations s hsl
  have hnames : (buildStationIndex (convertedLines rawLines)).map
      (fun r => r.name) =
      firstOccurrences ((convertedLines rawLines).flatMap fun l => l.stations) := by
    unfold buildStationIndex firstOccurrences
    rw [foldl_addLine_names (convertedLines rawLines) []]
    simp only [List.map_nil]
    exact foldl_names_step_eq _ [] hne
  have hnodup : ((buildStationIndex (convertedLines rawLines)).map
      fun r => r.name).Nodup := by
    rw [hnames]
    exact firstOccurrences_nodup _
  refine ⟨hnodup, hnames, ?_⟩
  intro r hr
  have hrne : r.name ≠ "" := by
    have hmem : r.name ∈ (buildStationIndex (convertedLines rawLines)).map
        (fun r => r.name) := List.mem_map_of_mem _ hr
    rw [hnames] at hmem
    exact hne _ (mem_firstOccurrences _ _ hmem)
  have hlook : lookupRec (buildStationIndex (convertedLines rawLines)) r.name =
      some r := lookupRec_self _ hnodup hr
  have h1 : tagsOf (buildStationIndex (convertedLines rawLines)) r.name =
      r.lines := by
    unfold tagsOf
    rw [hlook]
    rfl
  rw [← h1]
  unfold buildStationIndex
  rw [tagsOf_foldl_addLine (convertedLines rawLines) [] r.name hnod hrne]
  simp [tagsOf, lookupRec]

theorem progress_lt_one_iff (e d : ℚ) (hd : 0 < d) :
    progressOf e d < 1 ↔ e < d := by
  unfold progressOf
  rw [min_lt_iff]
  simp [div_lt_one hd]

theorem highlightEvents_shape (p : SpinParams) (t : ℚ) :
    ∀ e ∈ highlightEvents p t, ∃ x, e = AnimEvent.highlight x := by
  unfold highlightEvents
  cases liveItem p.items (frameRotation p t) with
  | none => intro e he; cases he
  | some s =>
    intro e he
    rw [List.mem_singleton] at he
    exact ⟨s, he⟩

theorem runAnimate_complete (p : SpinParams) (s : MetroStation)
    (hdur : 0 < p.duration) (hitem : p.targetItem = some s) :
    ∀ ts : List ℚ, (∃ t ∈ ts, p.startTime + p.duration ≤ t) →
      ∃ pre, runAnimate p ts =
          pre ++ [AnimEvent.animatingSet false, AnimEvent.complete s] ∧
        ∀ e ∈ pre, (∀ x, e ≠ AnimEvent.complete x) ∧
          (∀ b, e ≠ AnimEvent.animatingSet b) := by
  intro ts
  induction ts with
  | nil =>
    rintro ⟨t, ht, _⟩
    cases ht
  | cons t rest ih =>
    rintro ⟨t0, ht0, hcomp⟩
    by_cases hlt : progressOf (t - p.startTime) p.duration < 1
    · have ht0rest : t0 ∈ rest := by
        rcases List.mem_cons.mp ht0 with h | h
        · exfalso
          rw [progress_lt_one_iff _ _ hdur] at hlt
          subst h
          linarith
        · exact h
      obtain ⟨pre, hpre, hmem⟩ := ih ⟨t0, ht0rest, hcomp⟩
      have hfe : frameEvents p t =
          (AnimEvent.rotationSet (frameRotation p t) :: highlightEvents p t,
            true) := by
        unfold frameEvents
        rw [if_pos hlt]
      refine ⟨(AnimEvent.rotationSet (frameRotation p t) ::
          highlightEvents p t) ++ pre, ?_, ?_⟩
      · simp only [runAnimate, hfe, if_true]
        rw [hpre]
        simp [List.append_assoc]
      · intro e he
        rcases List.mem_append.mp he with h | h
        · rcases List.mem_cons.mp h with h1 | h1
          · subst h1
            exact ⟨fun x => by simp, fun b => by simp⟩
          · obtain ⟨x, rfl⟩ := highlightEvents_shape p t e h1
            exact ⟨fun y => by simp, fun b => by simp⟩
        · exact hmem e h
    · have hfe : frameEvents p t =
          (AnimEvent.rotationSet (frameRotation p t) :: highlightEvents p t ++
            [AnimEvent.rotationSet p.endRotation,
              AnimEvent.animatingSet false] ++ completeEvents p, false) := by
        unfold frameEvents
        rw [if_neg hlt]
      have hce : completeEvents p = [AnimEvent.complete s] := by
        unfold completeEvents
        rw [hitem]
      refine ⟨AnimEvent.rotationSet (frameRotation p t) ::
          highlightEvents p t ++ [AnimEvent.rotationSet p.endRotation], ?_, ?_⟩
      · simp only [runAnimate, hfe, Bool.false_eq_true, if_false]
        rw [hce]
        simp [List.append_assoc]
      · intro e he
        rcases List.mem_cons.mp he with h1 | h1
        · subst h1
          exact ⟨fun x => by simp, fun b => by simp⟩
        · rcases List.mem_append.mp h1 with h2 | h2
          · obtain ⟨x, rfl⟩ := highlightEvents_shape p t e h2
            exact ⟨fun y => by simp, fun b => by simp⟩
          · rw [List.mem_singleton] at h2
            subst h2
            exact ⟨fun x => by simp, fun b => by simp⟩

/-- C5: an accepted `spin()`, run over any frame-timestamp sequence that
reaches the duration, produces exactly one completion event: the trace
ends with `isAnimating := false` followed by the single completion, after
every rotation write and highlight notification; no earlier event is a
completion or an `isAnimating` write. -/
theorem metro_c5_single_completion
    (items : List MetroStation) (st : WheelState) {rand1 rand2 : ℚ} (now : ℚ)
    (hne : items ≠ []) (hanim : st.isAnimating = false)
    (h1 : 0 ≤ rand1) (h2 : rand1 < 1) (h3 : 0 ≤ rand2) (_h4 : rand2 < 1)
    {p : SpinParams} (hp : (spinWheel items st rand1 rand2 now).2 = some p)
    (ts : List ℚ) (hts : ∃ t ∈ ts, p.startTime + p.duration ≤ t) :
    ∃ s pre, p.targetItem = some s ∧
      runAnimate p ts =
        pre ++ [AnimEvent.animatingSet false, AnimEvent.complete s] ∧
      ∀ e ∈ pre, (∀ x, e ≠ AnimEvent.complete x) ∧
        (∀ b, e ≠ AnimEvent.animatingSet b) := by
  have hlen : items.length ≠ 0 := fun h => hne (List.length_eq_zero.mp h)
  have hn : 0 < items.length := Nat.pos_of_ne_zero hlen
  have hraw : 720 < rawAngleDiff items.length rand1 rand2 st.rotation :=
    rawAngleDiff_gt items.length st.rotation hn h1 h2 h3
  have hif : (if rawAngleDiff items.length rand1 rand2 st.rotation < 0 then
      rawAngleDiff items.length rand1 rand2 st.rotation + 360
    else rawAngleDiff items.length rand1 rand2 st.rotation) =
      rawAngleDiff items.length rand1 rand2 st.rotation :=
    if_neg (by linarith)
  rw [spinWheel_accepted items st rand1 rand2 now hlen hanim] at hp
  simp only [Option.some.injEq] at hp
  subst hp
  rw [hif] at hts ⊢
  have hidx := targetIndex_lt items.length hn h1 h2
  have htarget : SpinParams.targetItem
      { items := items
        targetIndex := targetIndex items.length rand1
        startTime := now
        startRotation := st.rotation
        angleDiff := rawAngleDiff items.length rand1 rand2 st.rotation
        duration := 1000 * (1 +
          rawAngleDiff items.length rand1 rand2 st.rotation / 360 * (1 / 2)) } =
      some items[targetIndex items.length rand1] := by
    unfold SpinParams.targetItem
    exact List.getElem?_eq_getElem hidx
  have hdurpos : (0 : ℚ) < 1000 * (1 +
      rawAngleDiff items.length rand1 rand2 st.rotation / 360 * (1 / 2)) := by
    nlinarith
  obtain ⟨pre, hsplit, hprem⟩ :=
    runAnimate_complete _ _ hdurpos htarget ts hts
  exact ⟨items[targetIndex items.length rand1], pre, htarget, hsplit, hprem⟩

/-- Witness for C5: the concrete spin `spinP0` driven by one completing
frame timestamp. -/
theorem metro_c5_witness :
    ∃ s pre, SpinParams.targetItem spinP0 = some s ∧
      runAnimate spinP0 [10000] =
        pre ++ [AnimEvent.animatingSet false, AnimEvent.complete s] ∧
      ∀ e ∈ pre, (∀ x, e ≠ AnimEvent.complete x) ∧
        (∀ b, e ≠ AnimEvent.animatingSet b) :=
  @metro_c5_single_completion items4 { rotation := 0, isAnimating := false }
    0 0 0 (by simp [items4]) rfl (by norm_num) (by norm_num) (by norm_num)
    (by norm_num) spinP0
    (by
      have ht : (0 : ℤ).toNat = 0 := rfl
      norm_num [spinWheel, targetIndex, rawAngleDiff, normalize360, jsMod,
        jsTrunc, baseTargetAngle, sliceAngle, fullRotations, items4, spinP0,
        ht])
    [10000]
    ⟨10000, by simp, by norm_num [spinP0]⟩

theorem emod360_zero : emod360 (0 : ℚ) = 0 := by norm_num [emod360]

theorem emod360_inv (rot : ℚ) :
    emod360 (360 - rot) = if emod360 rot = 0 then 0 else 360 - emod360 rot := by
  have hkey : (360 : ℚ) - rot =
      -(emod360 rot) + 360 * ((1 - ⌊rot / 360⌋ : ℤ) : ℚ) := by
    unfold emod360
    push_cast
    ring
  rw [hkey, emod360_add_int]
  by_cases h : emod360 rot = 0
  · rw [if_pos h, h, neg_zero]
    exact emod360_zero
  · rw [if_neg h]
    have h0 := emod360_nonneg rot
    have h1 := emod360_lt rot
    have hpos : 0 < emod360 rot := lt_of_le_of_ne h0 (Ne.symm h)
    rw [emod360_neg_eq (by linarith) (by linarith)]
    ring

theorem floor_div_interval (x w : ℚ) (hx : 0 ≤ x) (hw : 0 < w) :
    ((⌊x / w⌋.toNat : ℚ)) * w ≤ x ∧ x < ((⌊x / w⌋.toNat : ℚ) + 1) * w := by
  have h0 : 0 ≤ ⌊x / w⌋ := Int.floor_nonneg.mpr (by positivity)
  have hcast : ((⌊x / w⌋.toNat : ℚ)) = ((⌊x / w⌋ : ℤ) : ℚ) := by
    exact_mod_cast Int.toNat_of_nonneg h0
  have hle := Int.floor_le (x / w)
  have hlt := Int.lt_floor_add_one (x / w)
  constructor
  · rw [hcast]
    calc ((⌊x / w⌋ : ℤ) : ℚ) * w ≤ x / w * w :=
          mul_le_mul_of_nonneg_right hle hw.le
      _ = x := by field_simp
  · rw [hcast]
    have := (div_lt_iff₀ hw).mp hlt
    linarith [this]

/-- C3 (amended): `pointerIndex` is the unique sector index `i` with
`(360 - rot) mod 360` inside `[i·w, (i+1)·w)` — the sector under the fixed
pointer.  The index the code reports per frame equals it exactly when the
normalized live rotation is a whole multiple of the slice width (as at
every exact landing); otherwise the code reports the next sector,
`pointerIndex + 1` modulo the item count. -/
theorem metro_c3_live_highlight (n : ℕ) (hn : 0 < n) (rot : ℚ) :
    (((pointerIndex n rot : ℚ)) * sliceAngle n ≤ emod360 (360 - rot) ∧
      emod360 (360 - rot) < ((pointerIndex n rot : ℚ) + 1) * sliceAngle n) ∧
    (emod360 rot = ((⌊emod360 rot / sliceAngle n⌋ : ℤ) : ℚ) * sliceAngle n →
      liveIndex n rot = pointerIndex n rot) ∧
    (emod360 rot ≠ ((⌊emod360 rot / sliceAngle n⌋ : ℤ) : ℚ) * sliceAngle n →
      liveIndex n rot = (pointerIndex n rot + 1) % n) := by
  have hnq : (0 : ℚ) < n := by exact_mod_cast hn
  have hw : 0 < sliceAngle n := by unfold sliceAngle; positivity
  have hnw : (n : ℚ) * sliceAngle n = 360 := by unfold sliceAngle; field_simp
  have hN0 := emod360_nonneg rot
  have hN1 := emod360_lt rot
  have hq0 : 0 ≤ emod360 rot / sliceAngle n := by positivity
  set c : ℤ := ⌊emod360 rot / sliceAngle n⌋ with hcdef
  have hc0 : 0 ≤ c := Int.floor_nonneg.mpr hq0
  have hqn : emod360 rot / sliceAngle n < n := by
    rw [div_lt_iff₀ hw, hnw]
    exact hN1
  have hcn : c < (n : ℤ) := by
    rw [hcdef, Int.floor_lt]
    exact_mod_cast hqn
  have hcNlt : c.toNat < n := by omega
  have hLI : liveIndex n rot = (n - c.toNat) % n := by
    unfold liveIndex
    rw [normalize360_eq]
    show (n - c.toNat % n) % n = (n - c.toNat) % n
    rw [Nat.mod_eq_of_lt hcNlt]
  refine ⟨floor_div_interval (emod360 (360 - rot)) (sliceAngle n)
    (emod360_nonneg _) hw, ?_, ?_⟩
  · intro hmult
    by_cases hzero : emod360 rot = 0
    · have hc : c = 0 := by
        rw [hcdef, hzero]
        simp
      have hPI : pointerIndex n rot = 0 := by
        unfold pointerIndex
        rw [emod360_inv rot, if_pos hzero]
        simp
      rw [hLI, hc, hPI]
      simp
    · have hcpos : 1 ≤ c := by
        rcases lt_or_ge c 1 with h | h
        · exfalso
          have hc : c = 0 := by omega
          rw [hc] at hmult
          push_cast at hmult
          rw [zero_mul] at hmult
          exact hzero hmult
        · exact h
      have hinv : emod360 (360 - rot) =
          (((n : ℤ) - c : ℤ) : ℚ) * sliceAngle n := by
        rw [emod360_inv rot, if_neg hzero, hmult]
        push_cast
        rw [← hnw]
        ring
      have hPI : pointerIndex n rot = ((n : ℤ) - c).toNat := by
        unfold pointerIndex
        rw [hinv, mul_div_cancel_right₀ _ (ne_of_gt hw), Int.floor_intCast]
      rw [hLI, hPI]
      have h1 : 1 ≤ c.toNat := by omega
      rw [Nat.mod_eq_of_lt (by omega)]
      omega
  · intro hmult
    have hzero : emod360 rot ≠ 0 := by
      intro h0
      apply hmult
      rw [hcdef, h0]
      simp
    have hqgt : ((c : ℤ) : ℚ) < emod360 rot / sliceAngle n := by
      rcases lt_or_eq_of_le (Int.floor_le (emod360 rot / sliceAngle n)) with h | h
      · exact h
      · exfalso
        apply hmult
        rw [h]
        field_simp
    have hNgt : ((c : ℤ) : ℚ) * sliceAngle n < emod360 rot := by
      calc ((c : ℤ) : ℚ) * sliceAngle n <
          emod360 rot / sliceAngle n * sliceAngle n :=
            mul_lt_mul_of_pos_right hqgt hw
        _ = emod360 rot := by field_simp
    have hNlt : emod360 rot < (((c : ℤ) : ℚ) + 1) * sliceAngle n := by
      have hlt := Int.lt_floor_add_one (emod360 rot / sliceAngle n)
      rw [← hcdef] at hlt
      have hlt2 := (div_lt_iff₀ hw).mp hlt
      push_cast at hlt2 ⊢
      linarith
    have hinv : emod360 (360 - rot) = 360 - emod360 rot := by
      rw [emod360_inv rot, if_neg hzero]
    have hfloor : ⌊emod360 (360 - rot) / sliceAngle n⌋ = (n : ℤ) - c - 1 := by
      rw [hinv, Int.floor_eq_iff]
      constructor
      · rw [le_div_iff₀ hw]
        push_cast
        nlinarith [hNlt]
      · rw [div_lt_iff₀ hw]
        push_cast
        nlinarith [hNgt]
    have hPI : pointerIndex n rot = ((n : ℤ) - c - 1).toNat := by
      unfold pointerIndex
      rw [hfloor]
    rw [hLI, hPI]
    by_cases hczero : c.toNat = 0
    · have hptr : ((n : ℤ) - c - 1).toNat = n - 1 := by omega
      have hn1 : n - 1 + 1 = n := by omega
      rw [hczero, hptr, hn1, Nat.sub_zero]
    · have hptr : ((n : ℤ) - c - 1).toNat + 1 = n - c.toNat := by omega
      rw [hptr]

/-- Witness for C3 at a four-item wheel and live rotation 45. -/
theorem metro_c3_witness :
    (((pointerIndex 4 45 : ℚ)) * sliceAngle 4 ≤ emod360 (360 - 45) ∧
      emod360 (360 - 45) < ((pointerIndex 4 45 : ℚ) + 1) * sliceAngle 4) ∧
    (emod360 45 = ((⌊emod360 45 / sliceAngle 4⌋ : ℤ) : ℚ) * sliceAngle 4 →
      liveIndex 4 45 = pointerIndex 4 45) ∧
    (emod360 45 ≠ ((⌊emod360 45 / sliceAngle 4⌋ : ℤ) : ℚ) * sliceAngle 4 →
      liveIndex 4 45 = (pointerIndex 4 45 + 1) % 4) :=
  metro_c3_live_highlight 4 (by norm_num) 45

/-- Counterexample for C3 as stated: at live rotation 45 on the four-item
wheel, `(360 - 45) mod 360 = 315` lies in the range `[3·90, 4·90)` of
sector 3, whose item is `stD`, yet the code reports `stA` (sector 0) to
the store. -/
theorem metro_c3_cex :
    liveItem items4 45 = some stA ∧
    (3 : ℚ) * sliceAngle items4.length ≤ emod360 (360 - 45) ∧
    emod360 (360 - 45) < ((3 : ℚ) + 1) * sliceAngle items4.length ∧
    items4[3]? = some stD ∧
    stA ≠ stD := by
  refine ⟨?_, ?_, ?_, ?_, ?_⟩
  · norm_num [liveItem, liveIndex, normalize360, jsMod, jsTrunc, sliceAngle,
      items4]
  · norm_num [emod360, sliceAngle, items4]
  · norm_num [emod360, sliceAngle, items4]
  · rfl
  · simp [stA, stD]

/-- Counterexample for C2 as stated: with four items, target index 2
(base target angle 180), start rotation 270 and zero extra-turn draw, the
code's total delta is 990, but 3×360 plus the minimal forward angle
(270) is 1350, so the claimed strict lower bound fails. -/
theorem metro_c2_cex :
    targetIndex items4.length (1 / 2) = 2 ∧
    (spinWheel items4 { rotation := 270, isAnimating := false }
        (1 / 2) 0 0).2 =
      some { items := items4, targetIndex := 2, startTime := 0,
             startRotation := 270, angleDiff := 990, duration := 2375 } ∧
    emod360 (baseTargetAngle items4.length 2 - 270) = 270 ∧
    ¬ (3 * 360 + emod360 (baseTargetAngle items4.length 2 - 270) <
        (990 : ℚ)) := by
  have ht : (2 : ℤ).toNat = 2 := rfl
  refine ⟨?_, ?_, ?_, ?_⟩
  · norm_num [targetIndex, items4, ht]
  · norm_num [spinWheel, targetIndex, normalize360, jsMod, jsTrunc,
      baseTargetAngle, sliceAngle, fullRotations, items4, ht]
  · norm_num [emod360, baseTargetAngle, sliceAngle, items4]
  · norm_num [emod360, baseTargetAngle, sliceAngle, items4]

/-- C2 (amended): across any non-decreasing frame-timestamp sequence the
written rotations are non-decreasing, and the total delta is at least
2×360 plus the minimal non-negative forward angle from the start rotation
to the base target angle — and strictly greater than 2×360.  (The extra
turns are added before the forward-difference is taken, so only two of
them are guaranteed on top of the minimal forward angle, not three.) -/
theorem metro_c2_monotone_delta
    (items : List MetroStation) (st : WheelState) {rand1 rand2 : ℚ} (now : ℚ)
    (hne : items ≠ []) (hanim : st.isAnimating = false)
    (h1 : 0 ≤ rand1) (h2 : rand1 < 1) (h3 : 0 ≤ rand2) (_h4 : rand2 < 1)
    {p : SpinParams} (hp : (spinWheel items st rand1 rand2 now).2 = some p)
    (ts : List ℚ) (hts : ts.Sorted (· ≤ ·)) :
    (ts.map (rotationAfterFrame p)).Sorted (· ≤ ·) ∧
    2 * 360 + emod360 (baseTargetAngle items.length
        (targetIndex items.length rand1) - st.rotation) ≤
      p.endRotation - p.startRotation ∧
    2 * 360 < p.endRotation - p.startRotation := by
  have hlen : items.length ≠ 0 := fun h => hne (List.length_eq_zero.mp h)
  have hn : 0 < items.length := Nat.pos_of_ne_zero hlen
  have hraw : 720 < rawAngleDiff items.length rand1 rand2 st.rotation :=
    rawAngleDiff_gt items.length st.rotation hn h1 h2 h3
  have hge : 720 + emod360 (baseTargetAngle items.length
      (targetIndex items.length rand1) - st.rotation) ≤
      rawAngleDiff items.length rand1 rand2 st.rotation :=
    rawAngleDiff_ge_emod items.length st.rotation hn h1 h2 h3
  have hif : (if rawAngleDiff items.length rand1 rand2 st.rotation < 0 then
      rawAngleDiff items.length rand1 rand2 st.rotation + 360
    else rawAngleDiff items.length rand1 rand2 st.rotation) =
      rawAngleDiff items.length rand1 rand2 st.rotation :=
    if_neg (by linarith)
  rw [spinWheel_accepted items st rand1 rand2 now hlen hanim] at hp
  simp only [Option.some.injEq] at hp
  subst hp
  rw [hif]
  have hdurpos : (0 : ℚ) < 1000 * (1 +
      rawAngleDiff items.length rand1 rand2 st.rotation / 360 * (1 / 2)) := by
    nlinarith
  refine ⟨?_, ?_, ?_⟩
  · refine List.pairwise_map.mpr (hts.imp ?_)
    intro a b hab
    exact rotationAfterFrame_mono _ hdurpos (by
      show (0 : ℚ) ≤ rawAngleDiff items.length rand1 rand2 st.rotation
      linarith) hab
  · simp only [SpinParams.endRotation]
    linarith
  · simp only [SpinParams.endRotation]
    linarith

/-- Witness for C2 (amended) on the concrete spin `spinP0` with three
sorted frame timestamps. -/
theorem metro_c2_witness :
    (([0, 1500, 9999] : List ℚ).map (rotationAfterFrame spinP0)).Sorted
        (· ≤ ·) ∧
    2 * 360 + emod360 (baseTargetAngle items4.length
        (targetIndex items4.length 0) - (0 : ℚ)) ≤
      spinP0.endRotation - spinP0.startRotation ∧
    2 * 360 < spinP0.endRotation - spinP0.startRotation :=
  @metro_c2_monotone_delta items4 { rotation := 0, isAnimating := false }
    0 0 0 (by simp [items4]) rfl (by norm_num) (by norm_num) (by norm_num)
    (by norm_num) spinP0
    (by
      have ht : (0 : ℤ).toNat = 0 := rfl
      norm_num [spinWheel, targetIndex, rawAngleDiff, normalize360, jsMod,
        jsTrunc, baseTargetAngle, sliceAngle, fullRotations, items4, spinP0,
        ht])
    [0, 1500, 9999] (by norm_num [List.sorted_cons])

/-- C1 fails on the code: with items A,B,C,D, start rotation 0, target
draw 1/2 (index 2, item C) and extra-turn draw 1/4, the extra turns are
the fractional 3.5, the run ends at rotation 1440 whose remainder mod 360
is 0 — not the base target angle 180 — and the sector-lookup at the final
angle yields item A while the completion reports item C. -/
theorem metro_c1_exact_landing_fails :
    (spinWheel items4 { rotation := 0, isAnimating := false }
        (1 / 2) (1 / 4) 0).2 = some spinP1 ∧
    fullRotations (1 / 4) = 7 / 2 ∧
    SpinParams.targetItem spinP1 = some stC ∧
    SpinParams.endRotation spinP1 = 1440 ∧
    emod360 (SpinParams.endRotation spinP1) = 0 ∧
    emod360 (baseTargetAngle items4.length 2) = 180 ∧
    liveItem items4 (SpinParams.endRotation spinP1) = some stA ∧
    stA ≠ stC := by
  have ht : (2 : ℤ).toNat = 2 := rfl
  refine ⟨?_, ?_, ?_, ?_, ?_, ?_, ?_, ?_⟩
  · norm_num [spinWheel, targetIndex, normalize360, jsMod, jsTrunc,
      baseTargetAngle, sliceAngle, fullRotations, items4, spinP1, ht]
  · norm_num [fullRotations]
  · rfl
  · norm_num [SpinParams.endRotation, spinP1]
  · norm_num [emod360, SpinParams.endRotation, spinP1]
  · norm_num [emod360, baseTargetAngle, sliceAngle, items4]
  · norm_num [liveItem, liveIndex, normalize360, jsMod, jsTrunc, sliceAngle,
      items4, SpinParams.endRotation, spinP1]
  · simp [stA, stC]

end MetroSpin
